import Mathlib

-- Verification of the ring-feature extraction code (rex.py):
-- polar-profile peak extraction, ring statistics, and center search.
-- Numeric arrays are modelled as `List` over an ordered field (`ℚ` in the
-- decidable theorems, `ℝ` where square roots or complex exponentials occur);
-- machine floats are modelled as exact field elements.

-- ============================== Definitions ==============================

-- `np.argsort(prof)[-1]` (rex.py:139-140) selects an index attaining the
-- maximum value.  numpy guarantees a sorted index permutation but NOT the
-- order among tied values (its default quicksort is unstable at this repo's
-- profile sizes, NRS = 100 and NRS_SEARCH = 50; only arrays of at most ~16
-- elements fall into its stable insertion-sort regime).  `argmaxLastAux a t`
-- is one concrete such selection for the list `a :: t` -- the last tied
-- occurrence, numpy's actual behaviour on small arrays -- used by the claims
-- whose meaning does not depend on the tie order; claims that do depend on
-- it quantify over the argsort contract `IsArgsortAsc` instead.
def argmaxLastAux {α : Type} [LinearOrder α] : α → List α → ℕ × α
  | a, [] => (0, a)
  | a, b :: t =>
    if a ≤ (argmaxLastAux b t).2 then ((argmaxLastAux b t).1 + 1, (argmaxLastAux b t).2)
    else (0, a)

-- Index produced by `np.argsort(prof)[-1]` in `calc_pkrad_from_prof` (rex.py:139-140).
def argmaxLast {α : Type} [LinearOrder α] : List α → ℕ
  | [] => 0
  | a :: t => (argmaxLastAux a t).1

-- `np.argmax` / first minimum analogues (first occurrence wins on ties).
def argmaxFirstAux {α : Type} [LinearOrder α] : α → List α → ℕ × α
  | a, [] => (0, a)
  | a, b :: t =>
    if a < (argmaxFirstAux b t).2 then ((argmaxFirstAux b t).1 + 1, (argmaxFirstAux b t).2)
    else (0, a)

def argmaxFirstIdx {α : Type} [LinearOrder α] : List α → ℕ
  | [] => 0
  | a :: t => (argmaxFirstAux a t).1

-- `np.argmin` (first occurrence wins on ties): pair (index, value) of the
-- first minimum of `a :: t`.
def argminFirstAux {α : Type} [LinearOrder α] : α → List α → ℕ × α
  | a, [] => (0, a)
  | a, b :: t =>
    if (argminFirstAux b t).2 < a then ((argminFirstAux b t).1 + 1, (argminFirstAux b t).2)
    else (0, a)

def argminFirstIdx {α : Type} [LinearOrder α] : List α → ℕ
  | [] => 0
  | a :: t => (argminFirstAux a t).1

-- `np.mean` of a 1D array.
def listMean {α : Type} [Field α] (l : List α) : α := l.sum / (l.length : α)

-- Population variance, so that `np.std = sqrt (listVar)` (numpy default ddof=0).
def listVar {α : Type} [Field α] (l : List α) : α :=
  ((l.map (fun x => (x - listMean l) ^ 2)).sum) / (l.length : α)

noncomputable def np_std (l : List ℝ) : ℝ := Real.sqrt (listVar l)

-- `np.max` of a 1D array (numpy raises on an empty array; modelled as 0 there).
def listMax {α : Type} [Zero α] [LinearOrder α] : List α → α
  | [] => 0
  | a :: t => t.foldl max a

-- The small floor `EP = 1.e-16` (rex.py:47).
def EP {α : Type} [DivisionRing α] : α := 1 / 10 ^ 16

-- Three-point parabolic refinement `quad_interp_radius(r_max, dr, val_list)`
-- (rex.py:686-696), with `val_list = [v_L, v_max, v_R]`.
def quad_interp_radius {α : Type} [LinearOrderedField α] (r_max dr : α) (val_list : List α) :
    α × α :=
  let v_L := val_list.getD 0 0
  let v_max := val_list.getD 1 0
  let v_R := val_list.getD 2 0
  (r_max + dr * (v_L - v_R) / (2 * (v_L + v_R - 2 * v_max)),
    (8 * v_max * (v_L + v_R) - (v_L - v_R) ^ 2 - 16 * v_max ^ 2) /
      (8 * (v_L + v_R - 2 * v_max)))

-- Radius grid `self.rs = np.linspace(0, rmax, nrs)` (rex.py:116), pointwise.
def rsGrid {α : Type} [LinearOrderedField α] (rmax : α) (nrs : ℕ) (i : ℕ) : α :=
  rmax * i / ((nrs - 1 : ℕ) : α)

-- The radius grid as a list.
def rsOf {α : Type} [LinearOrderedField α] (rmax : α) (nrs : ℕ) : List α :=
  (List.range nrs).map (rsGrid rmax nrs)

-- `self.dr = self.rs[-1] - self.rs[-2]` (rex.py:117).
def drOf {α : Type} [LinearOrderedField α] (rmax : α) (nrs : ℕ) : α :=
  (rsOf rmax nrs).getD (nrs - 1) 0 - (rsOf rmax nrs).getD (nrs - 2) 0

-- Angle grid `thetas = np.linspace(0, 2*np.pi, nrays)` (rex.py:706), as a
-- list; note it is endpoint-inclusive, so both 0 and 2π are sampled.
noncomputable def thetasOf (nrays : ℕ) : List ℝ :=
  (List.range nrays).map (fun j => 2 * Real.pi * (j : ℝ) / ((nrays - 1 : ℕ) : ℝ))

-- `Profiles.calc_pkrad_from_prof` (rex.py:137-146): select the discrete peak
-- index via `np.argsort(prof)[-1]`, refine with `quad_interp_radius` when the
-- index is interior (`pkpos > 0 and pkpos < self.nrs - 1`), otherwise return
-- the raw grid point.
def calc_pkrad_from_prof {α : Type} [LinearOrderedField α] (rsL : List α) (dr : α)
    (nrs : ℕ) (prof : List α) : α × α :=
  let pkpos := argmaxLast prof
  let pk := rsL.getD pkpos 0
  let vpk := prof.getD pkpos 0
  if 0 < pkpos ∧ pkpos < nrs - 1 then
    quad_interp_radius pk dr [prof.getD (pkpos - 1) 0, prof.getD pkpos 0, prof.getD (pkpos + 1) 0]
  else (pk, vpk)

-- Modelled from numpy's documented contract for `np.argsort` (ascending):
-- the output is some permutation of the index range along which the profile
-- values are non-decreasing; the order among TIED values is left unspecified.
def IsArgsortAsc {α : Type} [LinearOrderedField α] (prof : List α) (args : List ℕ) : Prop :=
  args.Perm (List.range prof.length) ∧
    (args.map (fun i => prof.getD i 0)).Sorted (· ≤ ·)

-- The selection-then-refinement of `calc_pkrad_from_prof` (rex.py:139-146)
-- with the selected peak index made an explicit argument, so that theorems
-- can quantify over every index a valid argsort can select, and with the
-- degenerate three-point fit surfaced: when both neighbors tie the selected
-- maximum, `v_L + v_R - 2*v_max = 0` and the float code computes 0/0 = NaN
-- inside `quad_interp_radius`; that error value is modelled as `none`.
def calc_pkrad_sel {α : Type} [LinearOrderedField α] (rsL : List α) (dr : α)
    (nrs : ℕ) (prof : List α) (pkpos : ℕ) : Option (α × α) :=
  if 0 < pkpos ∧ pkpos < nrs - 1 then
    if prof.getD (pkpos - 1) 0 + prof.getD (pkpos + 1) 0 - 2 * prof.getD pkpos 0 = 0 then
      none
    else
      some (quad_interp_radius (rsL.getD pkpos 0) dr
        [prof.getD (pkpos - 1) 0, prof.getD pkpos 0, prof.getD (pkpos + 1) 0])
  else some (rsL.getD pkpos 0, prof.getD pkpos 0)

-- Per-ray diameters `2*np.abs(pk)` from the `Profiles.__init__` loop
-- (rex.py:122-131).
def diametersOf {α : Type} [LinearOrderedField α] (rsL : List α) (dr : α) (nrs : ℕ)
    (profs : List (List α)) : List α :=
  profs.map (fun p => 2 * |(calc_pkrad_from_prof rsL dr nrs p).1|)

-- Insertion sort, modelling `np.sort` on the spline roots (rex.py:364).
def insertSorted {α : Type} [LinearOrder α] (a : α) : List α → List α
  | [] => [a]
  | b :: t => if a ≤ b then a :: b :: t else b :: insertSorted a t

def sortAsc {α : Type} [LinearOrder α] : List α → List α
  | [] => []
  | a :: t => insertSorted a (sortAsc t)

-- The root scan of `Profiles.calc_width` (rex.py:362-369): walk the sorted
-- roots keeping the last root below the peak radius as `lh`, and stop at the
-- first root at or above it as `rh`.
def widthScan {α : Type} [LinearOrder α] : α → α → α → List α → α × α
  | _, lh, rh, [] => (lh, rh)
  | pkrad, lh, rh, root :: t =>
    if root < pkrad then widthScan pkrad root rh t else (lh, root)

-- `Profiles.calc_width` (rex.py:354-371).  The smoothing-spline root finder
-- `scipy.interpolate.UnivariateSpline(rs, prof - 0.5*maxval, s=0).roots()` is
-- an external library call, supplied as the function `calcRoots` taking the
-- radius grid and the zeroed profile values.
noncomputable def calc_width (calcRoots : List ℝ → List ℝ → List ℝ) (rsL : List ℝ)
    (dr : ℝ) (nrs : ℕ) (prof : List ℝ) : ℝ × ℝ :=
  let pw := calc_pkrad_from_prof rsL dr nrs prof
  let roots := calcRoots rsL (prof.map (fun v => v - 0.5 * pw.2))
  if roots = [] then (rsL.getD 0 0, rsL.getD (rsL.length - 1) 0)
  else widthScan pw.1 (rsL.getD 0 0) (rsL.getD (rsL.length - 1) 0) (sortAsc roots)

-- The per-ray width outlier rejection of `calc_meanprof_and_stats`
-- (rex.py:190-199): a width is kept unless `width <= 0 or
-- width >= 2*meanprof_width`.
def filterWidths {α : Type} [LinearOrderedField α] (widths : List α)
    (meanprof_width : α) : List α :=
  widths.filter (fun w => !(decide (w ≤ 0) || decide (2 * meanprof_width ≤ w)))

-- The same filter as the SPEC sentence words it ("non-positive or exceeds
-- twice the mean-profile width", i.e. strict >), for refinement comparison.
def filterWidthsSpec {α : Type} [LinearOrderedField α] (widths : List α)
    (meanprof_width : α) : List α :=
  widths.filter (fun w => !(decide (w ≤ 0) || decide (2 * meanprof_width < w)))

-- `self.RingWidth = (np.mean(ringwidths), np.std(ringwidths))` (rex.py:201).
noncomputable def ringWidthAggregate (widths : List ℝ) (meanprof_width : ℝ) : ℝ × ℝ :=
  (listMean (filterWidths widths meanprof_width), np_std (filterWidths widths meanprof_width))

-- `np.mod(r, 2*np.pi)` for real `r`.
noncomputable def mod2pi (r : ℝ) : ℝ := r - 2 * Real.pi * (⌊r / (2 * Real.pi)⌋ : ℤ)

-- `Profiles.calc_ringangle_asymmetry` (rex.py:373-380): normalize the angular
-- profile to unit integral, take the complex first moment
-- `x = Σ prof(θ)·e^{iθ}·dθ`, and return (angle mod 2π, |x|, sqrt(-2 ln|x|)).
noncomputable def calc_ringangle_asymmetry (thetas prof : List ℝ) : ℝ × ℝ × ℝ :=
  let dtheta := thetas.getD (thetas.length - 1) 0 - thetas.getD (thetas.length - 2) 0
  let total := (prof.map (fun p => p * dtheta)).sum
  let x : ℂ := ((prof.zip thetas).map
    (fun pt => ((pt.1 / total : ℝ) : ℂ) * Complex.exp ((pt.2 : ℂ) * Complex.I) *
      ((dtheta : ℝ) : ℂ))).sum
  (mod2pi (Complex.arg x), Complex.abs x, Real.sqrt (-2 * Real.log (Complex.abs x)))

-- `self.RingAsym2 = ((brightflux-dimflux)/(brightflux+dimflux),
--  brightflux/dimflux)` (rex.py:284): both denominators are bare.
def RingAsym2_of {α : Type} [Field α] (brightflux dimflux : α) : α × α :=
  ((brightflux - dimflux) / (brightflux + dimflux), brightflux / dimflux)

-- The asymmetry ratios as the SPEC sentence claims them (floor `EP` added to
-- each denominator), for refinement comparison.
def RingAsym2_floored {α : Type} [Field α] (brightflux dimflux : α) : α × α :=
  ((brightflux - dimflux) / (brightflux + dimflux + EP), brightflux / (dimflux + EP))

-- `self.RingContrast2 = self.meanpk / self.in_level` (rex.py:231): bare denominator.
def RingContrast2_of {α : Type} [Field α] (meanpk in_level : α) : α := meanpk / in_level

-- `self.std_offsource = np.std(offsource_vec) + EP` (rex.py:350).
noncomputable def std_offsource_of (offsource : List ℝ) : ℝ := np_std offsource + EP

-- `self.mean_offsource = np.mean(offsource_vec) + EP` (rex.py:351).
noncomputable def mean_offsource_of (offsource : List ℝ) : ℝ := listMean offsource + EP

-- The centre-search objective `objFunc` inside `findCenter` (rex.py:773-783).
-- The polar resampling `compute_ring_profile` at reduced resolution rests on
-- scipy's bicubic `interp2d`, an external library call; the map from a trial
-- center to the resampled profile bundle is therefore supplied as the
-- function `resample`.  The diameter statistics are exactly the `RingSize1`
-- computation of `Profiles.__init__` on that bundle.
noncomputable def objFunc (resample : ℚ × ℚ → List (List ℚ)) (rmaxP : ℚ) (nrsP : ℕ)
    (rmin_search rmax_search : ℚ) (pos : ℚ × ℚ) : EReal :=
  let profs := resample pos
  let mean := listMean (diametersOf (rsOf rmaxP nrsP) (drOf rmaxP nrsP) nrsP profs)
  let std : ℝ := Real.sqrt ((listVar (diametersOf (rsOf rmaxP nrsP) (drOf rmaxP nrsP) nrsP profs) : ℚ) : ℝ)
  if mean < rmin_search ∨ rmax_search < mean then (⊤ : EReal)
  else ((|std / ((mean : ℚ) : ℝ)| : ℝ) : EReal)

-- The brute-force grid of `scipy.optimize.brute` over
-- `ranges=((fovmin_x, fovmax_x), (fovmin_y, fovmax_y))` with `Ns = ns`
-- (rex.py:793-794): an endpoint-inclusive ns × ns lattice, row-major.
def bruteGrid (xmin xmax ymin ymax : ℚ) (ns : ℕ) : List (ℚ × ℚ) :=
  (List.range ns).flatMap (fun i => (List.range ns).map (fun j =>
    (xmin + i * (xmax - xmin) / ((ns - 1 : ℕ) : ℚ),
     ymin + j * (ymax - ymin) / ((ns - 1 : ℕ) : ℚ))))

-- `findCenter` (rex.py:763-796): evaluate the objective on the brute-force
-- grid and return the first grid point attaining the minimum
-- (`scipy.optimize.brute`'s `np.argmin` semantics).  The derivative-free
-- `fmin` finisher that brute applies afterwards is external to this
-- repository; it is modelled as the identity polish, which is exactly its
-- behaviour when every objective value is infinite (there is no finite value
-- to improve on).  Note the return type: a center is always produced for a
-- nonempty grid; there is no failure alternative.
noncomputable def findCenter (objF : ℚ × ℚ → EReal) (xmin xmax ymin ymax : ℚ)
    (ns : ℕ) : Option (ℚ × ℚ) :=
  match bruteGrid xmin xmax ymin ymax ns with
  | [] => none
  | g :: gs => some ((g :: gs).getD (argminFirstAux (objF g) (gs.map objF)).1 g)

-- Modelled from the spec: the image provider's record (§6) — rectangular
-- brightness array with optional polarization channels; the ehtim Image
-- class itself is outside src/.  Only the fields rex.py reads are kept.
structure EhtImage where
  imvec : List ℝ
  qvec : List ℝ
  uvec : List ℝ
  xdim : ℕ
  ydim : ℕ
  psize : ℝ

-- Modelled from the spec: `Image.copy()` produces an independent duplicate
-- of the image (ownership: no aliasing of the original's storage).
def EhtImage.copy (im : EhtImage) : EhtImage :=
  { imvec := im.imvec, qvec := im.qvec, uvec := im.uvec,
    xdim := im.xdim, ydim := im.ydim, psize := im.psize }

-- Modelled from the spec: field of view = pixel size × pixel count per axis.
noncomputable def fovx (im : EhtImage) : ℝ := (im.xdim : ℝ) * im.psize

noncomputable def fovy (im : EhtImage) : ℝ := (im.ydim : ℝ) * im.psize

-- Modelled from the spec: `ehc.RADPERUAS`, radians per microarcsecond.
noncomputable def radperuas : ℝ := Real.pi / 180 / 3600 / 1000000

-- The ProfileBundle state (§3): the fields of the `Profiles` object that
-- `calc_meanprof_and_stats` reads, as set up by `Profiles.__init__`.
structure ProfileBundle where
  im : EhtImage
  x0 : ℝ
  y0 : ℝ
  rmin : ℝ
  rmax : ℝ
  flux : ℝ
  profiles : List (List ℝ)
  profilesP : List (List ℝ)
  thetas : List ℝ
  rs : List ℝ
  dr : ℝ
  nang : ℕ
  nrs : ℕ

-- Modelled from the spec: operations rex.py calls on external collaborators
-- (scipy spline roots, scipy.stats circular mean/std, and the ehtim Image
-- methods `add_gauss` (unit-flux circular Gaussian blob at a given FWHM and
-- center offset) and `mask` (threshold at a cutoff fraction), both returning
-- new images).
structure ExternalOps where
  calcRoots : List ℝ → List ℝ → List ℝ
  circmean : List ℝ → ℝ
  circstd : List ℝ → ℝ
  addGauss : EhtImage → ℝ → ℝ → ℝ → EhtImage
  maskCut : EhtImage → ℝ → EhtImage

-- `np.mean(rows, axis=0)` for a list of rows of length `n`.
noncomputable def meanRows (rows : List (List ℝ)) (n : ℕ) : List ℝ :=
  (List.range n).map (fun j => listMean (rows.map (fun r => r.getD j 0)))

-- `profiles.T[i]`: the i-th column (value at radius index i, per angle).
def column (rows : List (List ℝ)) (i : ℕ) : List ℝ := rows.map (fun r => r.getD i 0)

-- `np.sum(v[mask])` for a boolean mask over a vector.
noncomputable def sumMasked (v : List ℝ) (m : List Bool) : ℝ :=
  (((v.zip m).filter (fun p => p.2)).map (fun p => p.1)).sum

noncomputable def sumMaskedC (v : List ℂ) (m : List Bool) : ℂ :=
  (((v.zip m).filter (fun p => p.2)).map (fun p => p.1)).sum

-- `np.arctan2(y, x)`.
noncomputable def arctan2 (y x : ℝ) : ℝ := Complex.arg ((x : ℂ) + (y : ℂ) * Complex.I)

-- The closure `anglemask` (rex.py:266-272): a point is in the bright half
-- when its position angle is within π/2 of the center angle.
noncomputable def anglemaskB (cangle x0_c y0_c x y : ℝ) : Bool :=
  let ang := mod2pi (-(arctan2 (y - y0_c) (x - x0_c)) + Real.pi / 2)
  decide (¬(Real.pi / 2 < mod2pi |ang - cangle|))

-- Pixel coordinate lists (rex.py:259-262).
noncomputable def xlistOf (im : EhtImage) : List ℝ :=
  (List.range im.xdim).map (fun i =>
    -(i : ℝ) * im.psize + (im.psize * (im.xdim : ℝ)) / 2 - im.psize / 2)

noncomputable def ylistOf (im : EhtImage) : List ℝ :=
  (List.range im.ydim).map (fun j =>
    -(j : ℝ) * im.psize + (im.psize * (im.ydim : ℝ)) / 2 - im.psize / 2)

-- The flattened angle mask `[[anglemask(i, j) for i in xlist] for j in ylist]`
-- (rex.py:274-275).
noncomputable def angleMaskVec (im : EhtImage) (cangle x0_c y0_c : ℝ) : List Bool :=
  (ylistOf im).flatMap (fun yy => (xlistOf im).map (fun xx => anglemaskB cangle x0_c y0_c xx yy))

-- `RingSize1` from `Profiles.__init__` (rex.py:134).
noncomputable def ringSize1R (b : ProfileBundle) : ℝ × ℝ :=
  (listMean (diametersOf b.rs b.dr b.nrs b.profiles),
   np_std (diametersOf b.rs b.dr b.nrs b.profiles))

-- The polarization block of `calc_meanprof_and_stats` (rex.py:286-333):
-- guarded on nonempty qvec and uvec; otherwise RingAsymPol keeps its default
-- (0, 0) and no polarized orientation is computed.
noncomputable def polStats (ops : ExternalOps) (b : ProfileBundle) (band : List ℕ)
    (maskvec_annulus : List Bool) (x0_c y0_c : ℝ) : (ℝ × ℝ) × Option (ℝ × ℝ) :=
  if 0 < b.im.qvec.length ∧ 0 < b.im.uvec.length then
    let pvec := (b.im.qvec.zip b.im.uvec).map (fun qu => Real.sqrt (qu.1 ^ 2 + qu.2 ^ 2))
    let pvec_C : List ℂ := (b.im.qvec.zip b.im.uvec).map
      (fun qu => (qu.1 : ℂ) + (qu.2 : ℂ) * Complex.I)
    let ringanglesPol := band.map (fun i => b.thetas.getD (argmaxFirstIdx (column b.profilesP i)) 0)
    let anglePol := (ops.circmean ringanglesPol, ops.circstd ringanglesPol)
    let maskvec_ang := angleMaskVec b.im anglePol.1 x0_c y0_c
    let maskvec_brighthalf := maskvec_annulus.zipWith (fun a c => a && c) maskvec_ang
    let maskvec_dimhalf := maskvec_annulus.zipWith (fun a c => a && !c) maskvec_ang
    let brightflux_pol_C := Complex.abs (sumMaskedC pvec_C maskvec_brighthalf)
    let dimflux_pol_C := Complex.abs (sumMaskedC pvec_C maskvec_dimhalf)
    let brightflux_pol := sumMasked pvec maskvec_brighthalf
    let dimflux_pol := sumMasked pvec maskvec_dimhalf
    ((brightflux_pol_C / dimflux_pol_C, brightflux_pol / dimflux_pol), some anglePol)
  else ((0, 0), none)

-- The RingStatistics record: every attribute `calc_meanprof_and_stats` sets.
structure RingStats where
  meanprof : List ℝ
  pkloc : ℕ
  pkrad : ℝ
  meanpk : ℝ
  abspk_loc_rad : ℕ
  abspk_rad : ℝ
  abspk_loc_ang : ℕ
  abspk_ang : ℝ
  in_level : ℝ
  out_level : ℝ
  lh : ℝ
  rh : ℝ
  lhloc : ℕ
  rhloc : ℕ
  RingSize2 : ℝ × ℝ
  RingWidth : ℝ × ℝ
  RingAngle1 : ℝ × ℝ
  meanprof_theta : List ℝ
  RingAngle2 : ℝ × ℝ
  RingContrast1 : ℝ
  RingContrast2 : ℝ
  RingAsym1 : ℝ × ℝ
  RingFlux : ℝ
  RingAsym2 : ℝ × ℝ
  RingAsymPol : ℝ × ℝ
  RingAnglePol : Option (ℝ × ℝ)
  impeak : ℝ
  std_offsource : ℝ
  mean_offsource : ℝ
  dynamic_range : ℝ

-- `Profiles.calc_meanprof_and_stats` (rex.py:148-352), as a function from the
-- bundle state to the (unchanged) state and the derived statistics record.
-- The image copies (`self.im.copy()`) and the in-place zeroing of the copies'
-- pixel vectors (`imvec *= 0`) are rendered explicitly.
noncomputable def calc_meanprof_and_stats (ops : ExternalOps) (b : ProfileBundle) :
    ProfileBundle × RingStats :=
  let rsL := b.rs
  let meanprof := meanRows b.profiles b.nrs
  let pkloc := argmaxLast meanprof
  let pkrad := rsL.getD pkloc 0
  let meanpk := meanprof.getD pkloc 0
  let flatidx := argmaxFirstIdx b.profiles.flatten
  let abspk_loc_rad := flatidx % b.nrs
  let abspk_loc_ang := flatidx / b.nrs
  let abspk_rad := rsL.getD abspk_loc_rad 0
  let abspk_ang := b.thetas.getD abspk_loc_ang 0
  let inner_loc := argminFirstIdx (rsL.map (fun r => (r - b.rmin) ^ 2))
  let in_level := listMean (meanprof.take inner_loc)
  let outer_loc := argminFirstIdx (rsL.map (fun r => (r - (b.rmax - b.rmin)) ^ 2))
  let out_level := listMean (meanprof.drop outer_loc)
  let meanprof_zeroed := meanprof.map (fun v => v - out_level)
  let lhrh := calc_width ops.calcRoots rsL b.dr b.nrs meanprof_zeroed
  let lh := lhrh.1
  let rh := lhrh.2
  let lhloc := argminFirstIdx (rsL.map (fun r => (r - lh) ^ 2))
  let rhloc := argminFirstIdx (rsL.map (fun r => (r - rh) ^ 2))
  let meanprof_width := |rh - lh|
  let ringSize2 := (2 * pkrad, meanprof_width)
  let rayWidths := b.profiles.map (fun p =>
    (calc_width ops.calcRoots rsL b.dr b.nrs p).2 - (calc_width ops.calcRoots rsL b.dr b.nrs p).1)
  let ringWidth := ringWidthAggregate rayWidths meanprof_width
  let band := List.range' lhloc (rhloc + 1 - lhloc)
  let ringangles := band.map (fun i => (calc_ringangle_asymmetry b.thetas (column b.profiles i)).1)
  let ringasyms := band.map (fun i => (calc_ringangle_asymmetry b.thetas (column b.profiles i)).2.1)
  let ringAngle1 := (ops.circmean ringangles, ops.circstd ringangles)
  let prof_mean_r := meanRows (band.map (fun i => column b.profiles i)) b.nang
  let ra2 := calc_ringangle_asymmetry b.thetas prof_mean_r
  let ringAngle2 := (ra2.1, ra2.2.2)
  let ringContrast1 :=
    listMax (b.profiles.map (fun row => listMax ((row.drop lhloc).take (rhloc + 1 - lhloc)))) /
      in_level
  let ringContrast2 := RingContrast2_of meanpk in_level
  let ringAsym1 := (listMean ringasyms, np_std ringasyms)
  let x0_c := fovx b.im / 2 - b.x0 * radperuas
  let y0_c := b.y0 * radperuas - fovy b.im / 2
  let rad_inner := ((ringSize1R b).1 / 2 - ringWidth.1 / 2) * radperuas
  let rad_outer := ((ringSize1R b).1 / 2 + ringWidth.1 / 2) * radperuas
  let mask_inner0 := b.im.copy
  let mask_outer0 := b.im.copy
  let immask := b.im.copy
  let mask_inner1 : EhtImage := { mask_inner0 with imvec := mask_inner0.imvec.map (fun v => v * 0) }
  let mask_outer1 : EhtImage := { mask_outer0 with imvec := mask_outer0.imvec.map (fun v => v * 0) }
  let mask_inner := ops.maskCut (ops.addGauss mask_inner1 (2 * rad_inner) x0_c y0_c) (1 / 2)
  let mask_outer := ops.maskCut (ops.addGauss mask_outer1 (2 * rad_outer) x0_c y0_c) (1 / 2)
  let maskvec_annulus := (mask_inner.imvec.map (fun v => decide (v ≠ 0))).zipWith
    (fun a c => xor a c) (mask_outer.imvec.map (fun v => decide (v ≠ 0)))
  let maskvec_ang := angleMaskVec b.im ringAngle1.1 x0_c y0_c
  let maskvec_brighthalf := maskvec_annulus.zipWith (fun a c => a && c) maskvec_ang
  let brightflux := sumMasked immask.imvec maskvec_brighthalf
  let maskvec_dimhalf := maskvec_annulus.zipWith (fun a c => a && !c) maskvec_ang
  let dimflux := sumMasked immask.imvec maskvec_dimhalf
  let ringFlux := brightflux + dimflux
  let ringAsym2 := RingAsym2_of brightflux dimflux
  let pol := polStats ops b band maskvec_annulus x0_c y0_c
  let mask0 := b.im.copy
  let immask2 := b.im.copy
  let x0_c2 := fovx mask0 / 2 - b.x0 * radperuas
  let y0_c2 := b.y0 * radperuas - fovy mask0 / 2
  let rad := (ringSize1R b).1 * radperuas
  let mask1 : EhtImage := { mask0 with imvec := mask0.imvec.map (fun v => v * 0) }
  let mask := ops.maskCut (ops.addGauss mask1 (2 * rad) x0_c2 y0_c2) (1 / 2)
  let maskvec := (mask.imvec.map (fun v => decide (v ≠ 0))).zipWith (fun a c => a || c)
    (immask2.imvec.map (fun v => decide (v < EP * b.flux)))
  let offsource_vec := ((immask2.imvec.zip maskvec).filter (fun p => !p.2)).map (fun p => p.1)
  let impeak := listMax b.im.imvec
  let std_off := std_offsource_of offsource_vec
  let mean_off := mean_offsource_of offsource_vec
  let dynrange := impeak / std_off
  (b,
   { meanprof := meanprof, pkloc := pkloc, pkrad := pkrad, meanpk := meanpk,
     abspk_loc_rad := abspk_loc_rad, abspk_rad := abspk_rad,
     abspk_loc_ang := abspk_loc_ang, abspk_ang := abspk_ang,
     in_level := in_level, out_level := out_level, lh := lh, rh := rh,
     lhloc := lhloc, rhloc := rhloc, RingSize2 := ringSize2, RingWidth := ringWidth,
     RingAngle1 := ringAngle1, meanprof_theta := prof_mean_r, RingAngle2 := ringAngle2,
     RingContrast1 := ringContrast1, RingContrast2 := ringContrast2,
     RingAsym1 := ringAsym1, RingFlux := ringFlux, RingAsym2 := ringAsym2,
     RingAsymPol := pol.1, RingAnglePol := pol.2, impeak := impeak,
     std_offsource := std_off, mean_offsource := mean_off, dynamic_range := dynrange })

-- Concrete external operations used for witness evaluations.
noncomputable def trivialOps : ExternalOps :=
  { calcRoots := fun _ _ => [], circmean := fun _ => 0, circstd := fun _ => 0,
    addGauss := fun im _ _ _ => im, maskCut := fun im _ => im }

-- A concrete unpolarized one-pixel bundle used for witness evaluations.
noncomputable def witnessBundle : ProfileBundle :=
  { im := { imvec := [1], qvec := [], uvec := [], xdim := 1, ydim := 1, psize := 1 },
    x0 := 0, y0 := 0, rmin := 0, rmax := 1, flux := 1,
    profiles := [[0, 1]], profilesP := [], thetas := [0],
    rs := [0, 1], dr := 1, nang := 1, nrs := 2 }

-- ============================== Theorems ==============================

-- The last entry of a nonempty list is a member of it.
theorem getLastD_mem {α : Type} : ∀ (l : List α) (d : α), l ≠ [] → l.getLastD d ∈ l
  | [], _, h => absurd rfl h
  | [a], _, _ => by simp
  | a :: b :: t, _, _ => by
    rw [List.getLastD_cons]
    exact List.mem_cons_of_mem a (getLastD_mem (b :: t) a (by simp))

-- In a list sorted by ≤, every member is at most the last entry.
theorem sorted_le_getLastD {α : Type} [LinearOrder α] :
    ∀ (L : List α), L.Sorted (· ≤ ·) → ∀ (d : α), ∀ x ∈ L, x ≤ L.getLastD d
  | [], _, _, x, hx => absurd hx (List.not_mem_nil x)
  | a :: t, hs, d, x, hx => by
    rw [List.sorted_cons] at hs
    rw [List.getLastD_cons]
    rcases List.mem_cons.mp hx with rfl | hxt
    · cases t with
      | nil => simp
      | cons b t' => exact hs.1 _ (getLastD_mem (b :: t') x (by simp))
    · exact sorted_le_getLastD t hs.2 a x hxt

-- `getLastD` commutes with `map` on nonempty lists (defaults irrelevant).
theorem getLastD_map_ne {α β : Type} (f : α → β) :
    ∀ (l : List α), l ≠ [] → ∀ (e : β) (d : α), (l.map f).getLastD e = f (l.getLastD d)
  | [], h, _, _ => absurd rfl h
  | [a], _, e, d => by simp
  | a :: b :: t, _, e, d => by
    rw [List.map_cons, List.getLastD_cons, List.getLastD_cons]
    exact getLastD_map_ne f (b :: t) (by simp) (f a) a

-- Any valid ascending argsort of a nonempty profile ends at an in-range
-- index ...
theorem argsortAsc_getLastD_lt_length (prof : List ℚ) (args : List ℕ)
    (h : IsArgsortAsc prof args) (hne : prof ≠ []) :
    args.getLastD 0 < prof.length := by
  obtain ⟨hperm, -⟩ := h
  have hlen : args.length = prof.length := by simpa using hperm.length_eq
  have hargsne : args ≠ [] := by
    intro he
    rw [he] at hlen
    simp only [List.length_nil] at hlen
    exact hne (List.length_eq_zero.mp hlen.symm)
  exact List.mem_range.mp (hperm.subset (getLastD_mem args 0 hargsne))

-- ... and the profile value there attains the maximum, whatever order the
-- sort put the tied values in.
theorem argsortAsc_le_last (prof : List ℚ) (args : List ℕ)
    (h : IsArgsortAsc prof args) :
    ∀ j, j < prof.length → prof.getD j 0 ≤ prof.getD (args.getLastD 0) 0 := by
  obtain ⟨hperm, hsort⟩ := h
  intro j hj
  have hjmem : j ∈ args := hperm.symm.subset (List.mem_range.mpr hj)
  have hargsne : args ≠ [] := List.ne_nil_of_mem hjmem
  have hfm : prof.getD j 0 ∈ args.map (fun i => prof.getD i 0) :=
    List.mem_map_of_mem _ hjmem
  have hle := sorted_le_getLastD (args.map (fun i => prof.getD i 0)) hsort 0
    (prof.getD j 0) hfm
  rwa [getLastD_map_ne (fun i => prof.getD i 0) args hargsne 0 0] at hle

-- Away from the degenerate fit, `calc_pkrad_sel` at the deterministic
-- `argmaxLast` selection agrees with `calc_pkrad_from_prof`.
theorem calc_pkrad_sel_coherent (rsL : List ℚ) (dr : ℚ) (nrs : ℕ) (prof : List ℚ)
    (hnd : prof.getD (argmaxLast prof - 1) 0 + prof.getD (argmaxLast prof + 1) 0 -
      2 * prof.getD (argmaxLast prof) 0 ≠ 0) :
    calc_pkrad_sel rsL dr nrs prof (argmaxLast prof) =
      some (calc_pkrad_from_prof rsL dr nrs prof) := by
  simp only [calc_pkrad_sel, calc_pkrad_from_prof]
  by_cases hin : 0 < argmaxLast prof ∧ argmaxLast prof < nrs - 1
  · rw [if_pos hin, if_pos hin, if_neg hnd]
  · rw [if_neg hin, if_neg hin]

theorem rsOf_getD {α : Type} [LinearOrderedField α] (rmax : α) (nrs : ℕ) (i : ℕ)
    (h : i < nrs) : (rsOf rmax nrs).getD i 0 = rsGrid rmax nrs i := by
  simp [rsOf, List.getD, List.getElem?_map, List.getElem?_range, h]

theorem drOf_eq {α : Type} [LinearOrderedField α] (rmax : α) (nrs : ℕ) (h : 2 ≤ nrs) :
    drOf rmax nrs = rmax / ((nrs - 1 : ℕ) : α) := by
  rw [drOf, rsOf_getD rmax nrs _ (by omega), rsOf_getD rmax nrs _ (by omega), rsGrid, rsGrid]
  rw [div_sub_div_same, ← mul_sub]
  congr 1
  have : ((nrs - 1 : ℕ) : α) = ((nrs - 2 : ℕ) : α) + 1 := by
    have : nrs - 1 = (nrs - 2) + 1 := by omega
    rw [this]
    push_cast
    ring
  rw [this]
  ring

/-- Claim C1: for a radial profile whose discrete maximum lies at an interior
index, `calc_pkrad_from_prof` (via `quad_interp_radius`) returns exactly
`r_pk = r_max + dr*(v_L - v_R)/(2*(v_L + v_R - 2*v_max))` and
`v_pk = (8*v_max*(v_L+v_R) - (v_L-v_R)^2 - 16*v_max^2)/(8*(v_L+v_R-2*v_max))`;
when the discrete maximum is at the first or last index it returns the raw
grid radius and value with no refinement. -/
theorem peak_extractor_formula (rmax : ℚ) (prof : List ℚ) :
    ((0 < argmaxLast prof ∧ argmaxLast prof < prof.length - 1) →
      calc_pkrad_from_prof (rsOf rmax prof.length) (drOf rmax prof.length) prof.length prof =
        (rsGrid rmax prof.length (argmaxLast prof) +
            drOf rmax prof.length *
              (prof.getD (argmaxLast prof - 1) 0 - prof.getD (argmaxLast prof + 1) 0) /
              (2 * (prof.getD (argmaxLast prof - 1) 0 + prof.getD (argmaxLast prof + 1) 0 -
                2 * prof.getD (argmaxLast prof) 0)),
          (8 * prof.getD (argmaxLast prof) 0 *
              (prof.getD (argmaxLast prof - 1) 0 + prof.getD (argmaxLast prof + 1) 0) -
            (prof.getD (argmaxLast prof - 1) 0 - prof.getD (argmaxLast prof + 1) 0) ^ 2 -
            16 * prof.getD (argmaxLast prof) 0 ^ 2) /
            (8 * (prof.getD (argmaxLast prof - 1) 0 + prof.getD (argmaxLast prof + 1) 0 -
              2 * prof.getD (argmaxLast prof) 0)))) ∧
    ((argmaxLast prof = 0 ∨ argmaxLast prof = prof.length - 1) →
      calc_pkrad_from_prof (rsOf rmax prof.length) (drOf rmax prof.length) prof.length prof =
        (rsGrid rmax prof.length (argmaxLast prof), prof.getD (argmaxLast prof) 0)) := by
  constructor
  · intro h
    have hlt : argmaxLast prof < prof.length := by omega
    rw [calc_pkrad_from_prof, if_pos h, quad_interp_radius]
    simp only [List.getD_cons_zero, List.getD_cons_succ]
    rw [rsOf_getD rmax prof.length _ hlt]
  · intro h
    have hneg : ¬(0 < argmaxLast prof ∧ argmaxLast prof < prof.length - 1) := by omega
    rw [calc_pkrad_from_prof, if_neg hneg]
    rcases h with h0 | hl
    · rcases Nat.eq_zero_or_pos prof.length with hn | hn
      · have hpe : prof = [] := List.length_eq_zero.mp hn
        subst hpe
        simp [argmaxLast, rsGrid, rsOf]
      · rw [rsOf_getD rmax prof.length _ (by omega)]
    · rcases Nat.eq_zero_or_pos prof.length with hn | hn
      · have hpe : prof = [] := List.length_eq_zero.mp hn
        subst hpe
        simp [argmaxLast, rsGrid, rsOf]
      · rw [rsOf_getD rmax prof.length _ (by omega)]

theorem peak_extractor_formula_witness :
    calc_pkrad_from_prof (rsOf (3 : ℚ) ([0, 5, 5, 1] : List ℚ).length)
        (drOf 3 ([0, 5, 5, 1] : List ℚ).length) ([0, 5, 5, 1] : List ℚ).length [0, 5, 5, 1] =
      (3 / 2, 11 / 2) :=
  ((peak_extractor_formula 3 [0, 5, 5, 1]).1 (by decide)).trans (by
    norm_num [rsGrid, drOf, rsOf, argmaxLast, argmaxLastAux, List.getD, List.range_succ])

/-- Claim C6 (counterexample): on the 4-element profile `[0, 5, 5, 1]` (small
enough to be in numpy's stable insertion-sort regime, which `argmaxLast`
models exactly), the maximum `5` occurs at indices 1 and 2 and the code
selects index 2, not the first occurrence 1, so its output `(3/2, 11/2)`
differs from the `(3/2, 45/8)` that first-occurrence selection would give. -/
theorem peak_tiebreak_counterexample :
    argmaxLast ([0, 5, 5, 1] : List ℚ) = 2 ∧ (2 : ℕ) ≠ 1 ∧
      calc_pkrad_from_prof (rsOf (3 : ℚ) 4) (drOf 3 4) 4 [0, 5, 5, 1] ≠ (3 / 2, 45 / 8) :=
  ⟨by decide, by decide, by
    norm_num [calc_pkrad_from_prof, quad_interp_radius, rsGrid, drOf, rsOf,
      argmaxLast, argmaxLastAux, List.getD, List.range_succ]⟩

/-- Claim C6 (amended): when the maximum value of a radial profile occurs at
more than one index, the Peak Extractor's selected index — the last entry of
whatever ascending index sort `np.argsort` returned — is always an in-range
index attaining the maximum value, but WHICH tied index is selected is
unspecified (numpy's default sort is not stable at these profile sizes); in
particular it need not be the first occurrence — on small arrays, where the
sort degenerates to a stable insertion sort, it is the last occurrence, as
the counterexample exhibits. -/
theorem peak_tiebreak_attains_max (prof : List ℚ) (args : List ℕ)
    (h : IsArgsortAsc prof args) (hne : prof ≠ []) :
    args.getLastD 0 < prof.length ∧
      ∀ j, j < prof.length → prof.getD j 0 ≤ prof.getD (args.getLastD 0) 0 :=
  ⟨argsortAsc_getLastD_lt_length prof args h hne, argsortAsc_le_last prof args h⟩

theorem peak_tiebreak_attains_max_witness :
    IsArgsortAsc ([0, 5, 5, 1] : List ℚ) [0, 3, 1, 2] ∧
      ([0, 3, 1, 2] : List ℕ).getLastD 0 < ([0, 5, 5, 1] : List ℚ).length ∧
      ([0, 5, 5, 1] : List ℚ).getD 1 0 ≤
        ([0, 5, 5, 1] : List ℚ).getD (([0, 3, 1, 2] : List ℕ).getLastD 0) 0 := by
  have h : IsArgsortAsc ([0, 5, 5, 1] : List ℚ) [0, 3, 1, 2] := ⟨by decide, by decide⟩
  have k := peak_tiebreak_attains_max [0, 5, 5, 1] [0, 3, 1, 2] h (by decide)
  exact ⟨h, k.1, k.2 1 (by decide)⟩

/-- Claim C7 (counterexample): on the profile `[0, 5, 5, 5, 0]` the maximum
is a three-point interior plateau; `[0, 4, 1, 3, 2]` is a valid ascending
argsort output (the tie order being unspecified) whose last entry selects the
mid-plateau index 2, an interior index — yet there both neighbors tie the
maximum, the parabolic fit's denominator `2*(v_L + v_R - 2*v_max)` is exactly
0, the float code computes 0/0 = NaN, and no refined radius strictly between
the flanking grid radii is returned. -/
theorem refined_peak_plateau_counterexample :
    IsArgsortAsc ([0, 5, 5, 5, 0] : List ℚ) [0, 4, 1, 3, 2] ∧
      ([0, 4, 1, 3, 2] : List ℕ).getLastD 0 = 2 ∧ 0 < 2 ∧ 2 < 5 - 1 ∧
      calc_pkrad_sel (rsOf (4 : ℚ) 5) (drOf 4 5) 5 [0, 5, 5, 5, 0] 2 = none := by
  refine ⟨⟨by decide, by decide⟩, by decide, by decide, by decide, ?_⟩
  have h1 : ([0, 5, 5, 5, 0] : List ℚ).getD (2 - 1) 0 = 5 := by decide
  have h2 : ([0, 5, 5, 5, 0] : List ℚ).getD (2 + 1) 0 = 5 := by decide
  have h3 : ([0, 5, 5, 5, 0] : List ℚ).getD 2 0 = 5 := by decide
  rw [calc_pkrad_sel, if_pos (by decide), if_pos (by rw [h1, h2, h3]; norm_num)]

/-- Claim C7 (amended): for every radial profile and EVERY peak index a valid
ascending argsort can select (the last entry of any sorted index
permutation), if the selected index is interior and the three-point fit is
non-degenerate (the two neighbors do not both tie the selected maximum), the
refinement is defined and the refined peak radius lies strictly between the
two flanking grid radii `r_max - dr` and `r_max + dr`; no bound is claimed at
a boundary index, and when both neighbors tie the maximum the fit degenerates
(float 0/0) and no such bound holds. -/
theorem refined_peak_strictly_between_amended (rmax : ℚ) (prof : List ℚ) (args : List ℕ)
    (hargs : IsArgsortAsc prof args) (hr : 0 < rmax)
    (h1 : 0 < args.getLastD 0) (h2 : args.getLastD 0 < prof.length - 1)
    (hnd : prof.getD (args.getLastD 0 - 1) 0 + prof.getD (args.getLastD 0 + 1) 0 -
      2 * prof.getD (args.getLastD 0) 0 ≠ 0) :
    calc_pkrad_sel (rsOf rmax prof.length) (drOf rmax prof.length) prof.length prof
        (args.getLastD 0) =
      some (quad_interp_radius (rsGrid rmax prof.length (args.getLastD 0))
        (drOf rmax prof.length)
        [prof.getD (args.getLastD 0 - 1) 0, prof.getD (args.getLastD 0) 0,
          prof.getD (args.getLastD 0 + 1) 0]) ∧
      rsGrid rmax prof.length (args.getLastD 0) - drOf rmax prof.length <
        (quad_interp_radius (rsGrid rmax prof.length (args.getLastD 0))
          (drOf rmax prof.length)
          [prof.getD (args.getLastD 0 - 1) 0, prof.getD (args.getLastD 0) 0,
            prof.getD (args.getLastD 0 + 1) 0]).1 ∧
      (quad_interp_radius (rsGrid rmax prof.length (args.getLastD 0))
          (drOf rmax prof.length)
          [prof.getD (args.getLastD 0 - 1) 0, prof.getD (args.getLastD 0) 0,
            prof.getD (args.getLastD 0 + 1) 0]).1 <
        rsGrid rmax prof.length (args.getLastD 0) + drOf rmax prof.length := by
  have hn : 3 ≤ prof.length := by omega
  have hA : args.getLastD 0 < prof.length := by omega
  set A := args.getLastD 0 with hAdef
  set vmax := prof.getD A 0 with hvmax
  set vL := prof.getD (A - 1) 0 with hvL
  set vR := prof.getD (A + 1) 0 with hvR
  have hLle : vL ≤ vmax := argsortAsc_le_last prof args hargs (A - 1) (by omega)
  have hRle : vR ≤ vmax := argsortAsc_le_last prof args hargs (A + 1) (by omega)
  have hD : vL + vR - 2 * vmax < 0 := lt_of_le_of_ne (by linarith) hnd
  have h2D : 2 * (vL + vR - 2 * vmax) < 0 := by linarith
  have hdr : 0 < drOf rmax prof.length := by
    rw [drOf_eq rmax prof.length (by omega)]
    apply div_pos hr
    exact_mod_cast Nat.pos_of_ne_zero (by omega)
  set dr := drOf rmax prof.length with hdrdef
  have hqeq : (quad_interp_radius (rsGrid rmax prof.length A) dr [vL, vmax, vR]).1 =
      rsGrid rmax prof.length A + dr * ((vL - vR) / (2 * (vL + vR - 2 * vmax))) := by
    rw [quad_interp_radius]
    simp only [List.getD_cons_zero, List.getD_cons_succ]
    rw [mul_div_assoc]
  have hq1 : (vL - vR) / (2 * (vL + vR - 2 * vmax)) < 1 := by
    rw [div_lt_iff_of_neg h2D]
    linarith
  have hq2 : (-1 : ℚ) < (vL - vR) / (2 * (vL + vR - 2 * vmax)) := by
    rw [lt_div_iff_of_neg h2D]
    linarith
  refine ⟨?_, ?_, ?_⟩
  · rw [calc_pkrad_sel, if_pos ⟨h1, h2⟩, if_neg hnd, rsOf_getD rmax prof.length _ hA]
  · rw [hqeq]
    nlinarith
  · rw [hqeq]
    nlinarith

theorem refined_peak_strictly_between_amended_witness :
    calc_pkrad_sel (rsOf (3 : ℚ) ([0, 5, 5, 1] : List ℚ).length)
        (drOf 3 ([0, 5, 5, 1] : List ℚ).length) ([0, 5, 5, 1] : List ℚ).length [0, 5, 5, 1]
        (([0, 3, 1, 2] : List ℕ).getLastD 0) =
      some (quad_interp_radius
        (rsGrid (3 : ℚ) ([0, 5, 5, 1] : List ℚ).length (([0, 3, 1, 2] : List ℕ).getLastD 0))
        (drOf 3 ([0, 5, 5, 1] : List ℚ).length)
        [([0, 5, 5, 1] : List ℚ).getD (([0, 3, 1, 2] : List ℕ).getLastD 0 - 1) 0,
          ([0, 5, 5, 1] : List ℚ).getD (([0, 3, 1, 2] : List ℕ).getLastD 0) 0,
          ([0, 5, 5, 1] : List ℚ).getD (([0, 3, 1, 2] : List ℕ).getLastD 0 + 1) 0]) ∧
      rsGrid (3 : ℚ) ([0, 5, 5, 1] : List ℚ).length (([0, 3, 1, 2] : List ℕ).getLastD 0) -
          drOf 3 ([0, 5, 5, 1] : List ℚ).length <
        (quad_interp_radius
          (rsGrid (3 : ℚ) ([0, 5, 5, 1] : List ℚ).length (([0, 3, 1, 2] : List ℕ).getLastD 0))
          (drOf 3 ([0, 5, 5, 1] : List ℚ).length)
          [([0, 5, 5, 1] : List ℚ).getD (([0, 3, 1, 2] : List ℕ).getLastD 0 - 1) 0,
            ([0, 5, 5, 1] : List ℚ).getD (([0, 3, 1, 2] : List ℕ).getLastD 0) 0,
            ([0, 5, 5, 1] : List ℚ).getD (([0, 3, 1, 2] : List ℕ).getLastD 0 + 1) 0]).1 ∧
      (quad_interp_radius
          (rsGrid (3 : ℚ) ([0, 5, 5, 1] : List ℚ).length (([0, 3, 1, 2] : List ℕ).getLastD 0))
          (drOf 3 ([0, 5, 5, 1] : List ℚ).length)
          [([0, 5, 5, 1] : List ℚ).getD (([0, 3, 1, 2] : List ℕ).getLastD 0 - 1) 0,
            ([0, 5, 5, 1] : List ℚ).getD (([0, 3, 1, 2] : List ℕ).getLastD 0) 0,
            ([0, 5, 5, 1] : List ℚ).getD (([0, 3, 1, 2] : List ℕ).getLastD 0 + 1) 0]).1 <
        rsGrid (3 : ℚ) ([0, 5, 5, 1] : List ℚ).length (([0, 3, 1, 2] : List ℕ).getLastD 0) +
          drOf 3 ([0, 5, 5, 1] : List ℚ).length :=
  refined_peak_strictly_between_amended 3 [0, 5, 5, 1] [0, 3, 1, 2]
    ⟨by decide, by decide⟩ (by norm_num) (by decide) (by decide)
    (by
      have ha : ([0, 5, 5, 1] : List ℚ).getD (([0, 3, 1, 2] : List ℕ).getLastD 0 - 1) 0 = 5 := by
        decide
      have hb : ([0, 5, 5, 1] : List ℚ).getD (([0, 3, 1, 2] : List ℕ).getLastD 0 + 1) 0 = 1 := by
        decide
      have hc : ([0, 5, 5, 1] : List ℚ).getD (([0, 3, 1, 2] : List ℕ).getLastD 0) 0 = 5 := by
        decide
      rw [ha, hb, hc]
      norm_num)

/-- Claim C4 (counterexample): the bright/dim flux ratio in `RingAsym2`
divides by the bare denominator: at brightflux = dimflux = 1 the code yields
the pair (0, 1) exactly, whereas the claimed floor `ε = 1e-16` in the
denominators would give a second component 1/(1 + 1e-16) ≠ 1. -/
theorem epsilon_floor_counterexample :
    RingAsym2_of (1 : ℚ) 1 = (0, 1) ∧ RingAsym2_floored (1 : ℚ) 1 ≠ (0, 1) := by
  constructor
  · norm_num [RingAsym2_of]
  · norm_num [RingAsym2_floored, EP, Prod.ext_iff]

/-- Claim C4 (amended): the ε = 1e-16 floor appears only in the dynamic-range
block — the off-source standard deviation and mean each get + ε, so the
dynamic-range denominator is strictly positive for every off-source list —
while the `RingAsym2` flux ratios and the contrast ratios divide by their
bare, unfloored denominators. -/
theorem epsilon_floor_only_dynamic_range :
    (∀ offsource : List ℝ, 0 < std_offsource_of offsource) ∧
      (∀ b d : ℚ, RingAsym2_of b d = ((b - d) / (b + d), b / d)) ∧
      (∀ x y : ℚ, RingContrast2_of x y = x / y) := by
  refine ⟨?_, fun b d => rfl, fun x y => rfl⟩
  intro l
  have h1 : (0 : ℝ) ≤ np_std l := Real.sqrt_nonneg _
  have h2 : (0 : ℝ) < EP := by norm_num [EP]
  unfold std_offsource_of
  linarith

/-- Claim C5 (counterexample): a ray whose width equals exactly twice the
mean-profile width is excluded by the code's filter (`width >= 2*w`), while
the claim's wording ("exceeds twice", strict) would keep it: with per-ray
widths `[6]` and mean-profile width 3, the code's aggregation list is empty
but the spec-worded filter keeps the ray. -/
theorem width_filter_counterexample :
    filterWidths ([6] : List ℚ) 3 = [] ∧ filterWidthsSpec ([6] : List ℚ) 3 = [6] := by
  constructor
  · norm_num [filterWidths, List.filter_cons]
  · norm_num [filterWidthsSpec, List.filter_cons]

/-- Claim C5 (amended): when aggregating per-ray half-maximum widths into
RingWidth, a ray's width is included in the aggregate if and only if it is
strictly positive and strictly less than twice the width computed from the
mean profile (that is, excluded iff non-positive or at least twice the
mean-profile width). -/
theorem width_filter_membership (widths : List ℚ) (mw : ℚ) (w : ℚ) :
    w ∈ filterWidths widths mw ↔ w ∈ widths ∧ 0 < w ∧ w < 2 * mw := by
  simp [filterWidths, List.mem_filter, not_or, not_le, and_assoc]

/-- Claim C2: for every trial center, the center-search objective `objFunc`
returns +∞ if and only if the mean ring diameter computed at reduced
resolution is strictly less than `rmin_search` or strictly greater than
`rmax_search`, and otherwise returns exactly `J = |std/mean|` of the per-ray
diameters; the rejection is a hard return of infinity, not a finite
penalty.  (The hypothesis `0 < rmin_search` records the positive prior
`RPRIOR_MIN`; it keeps the accepted region away from a zero mean, where
float semantics would diverge from exact division.) -/
theorem objFunc_hard_reject (resample : ℚ × ℚ → List (List ℚ)) (rmaxP : ℚ) (nrsP : ℕ)
    (rmin_search rmax_search : ℚ) (pos : ℚ × ℚ) (hpr : 0 < rmin_search) :
    (objFunc resample rmaxP nrsP rmin_search rmax_search pos = ⊤ ↔
      (listMean (diametersOf (rsOf rmaxP nrsP) (drOf rmaxP nrsP) nrsP (resample pos)) <
          rmin_search ∨
        rmax_search <
          listMean (diametersOf (rsOf rmaxP nrsP) (drOf rmaxP nrsP) nrsP (resample pos)))) ∧
    (¬(listMean (diametersOf (rsOf rmaxP nrsP) (drOf rmaxP nrsP) nrsP (resample pos)) <
          rmin_search ∨
        rmax_search <
          listMean (diametersOf (rsOf rmaxP nrsP) (drOf rmaxP nrsP) nrsP (resample pos))) →
      objFunc resample rmaxP nrsP rmin_search rmax_search pos =
        ((|Real.sqrt ((listVar (diametersOf (rsOf rmaxP nrsP) (drOf rmaxP nrsP) nrsP
              (resample pos)) : ℚ) : ℝ) /
            ((listMean (diametersOf (rsOf rmaxP nrsP) (drOf rmaxP nrsP) nrsP
              (resample pos)) : ℚ) : ℝ)| : ℝ) : EReal)) := by
  unfold objFunc
  by_cases hc : listMean (diametersOf (rsOf rmaxP nrsP) (drOf rmaxP nrsP) nrsP (resample pos)) <
      rmin_search ∨
    rmax_search < listMean (diametersOf (rsOf rmaxP nrsP) (drOf rmaxP nrsP) nrsP (resample pos))
  · exact ⟨by simp [hc], fun h => absurd hc h⟩
  · exact ⟨by simp [hc], fun _ => by simp [hc]⟩

theorem objFunc_hard_reject_witness :
    objFunc (fun _ => [[0, 1, 0], [0, 1, 0]]) 2 3 1 5 (0, 0) = ((0 : ℝ) : EReal) := by
  have key := objFunc_hard_reject (fun _ => ([[0, 1, 0], [0, 1, 0]] : List (List ℚ)))
    2 3 1 5 (0, 0) (by norm_num)
  have hrs : rsOf (2 : ℚ) 3 = [0, 1, 2] := by norm_num [rsOf, rsGrid, List.range_succ]
  have hdr : drOf (2 : ℚ) 3 = 1 := by
    rw [drOf_eq 2 3 (by norm_num)]
    norm_num
  have hpk : calc_pkrad_from_prof ([0, 1, 2] : List ℚ) 1 3 [0, 1, 0] = (1, 1) := by
    have ha : argmaxLast ([0, 1, 0] : List ℚ) = 1 := by decide
    have hv0 : ([0, 1, 0] : List ℚ).getD 0 0 = 0 := by decide
    have hv1 : ([0, 1, 0] : List ℚ).getD 1 0 = 1 := by decide
    have hv2 : ([0, 1, 0] : List ℚ).getD 2 0 = 0 := by decide
    have hr1 : ([0, 1, 2] : List ℚ).getD 1 0 = 1 := by decide
    simp only [calc_pkrad_from_prof, ha, hv0, hv1, hv2, hr1]
    rw [if_pos (by norm_num)]
    simp only [quad_interp_radius, hv0, hv1, hv2]
    norm_num
  have hds : diametersOf (rsOf (2 : ℚ) 3) (drOf 2 3) 3 [[0, 1, 0], [0, 1, 0]] = [2, 2] := by
    rw [hrs, hdr]
    simp only [diametersOf, List.map_cons, List.map_nil, hpk]
    norm_num
  have h2 := key.2 (by
    rw [show ((fun _ : ℚ × ℚ => ([[0, 1, 0], [0, 1, 0]] : List (List ℚ))) (0, 0)) =
      [[0, 1, 0], [0, 1, 0]] from rfl, hds]
    norm_num [listMean])
  rw [h2, show ((fun _ : ℚ × ℚ => ([[0, 1, 0], [0, 1, 0]] : List (List ℚ))) (0, 0)) =
    [[0, 1, 0], [0, 1, 0]] from rfl, hds]
  have hval : |Real.sqrt ((listVar ([2, 2] : List ℚ) : ℚ) : ℝ) /
      ((listMean ([2, 2] : List ℚ) : ℚ) : ℝ)| = 0 := by
    norm_num [listVar, listMean, Real.sqrt_zero]
  rw [hval]

theorem argminFirstAux_all_top (t : List EReal) (ht : ∀ x ∈ t, x = ⊤) :
    argminFirstAux (⊤ : EReal) t = (0, ⊤) := by
  induction t with
  | nil => simp [argminFirstAux]
  | cons b t ih =>
    have hb : b = ⊤ := ht b (List.mem_cons_self b t)
    have ih2 : argminFirstAux (⊤ : EReal) t = (0, ⊤) :=
      ih (fun x hx => ht x (List.mem_cons_of_mem b hx))
    subst hb
    simp [argminFirstAux, ih2]

/-- Claim C3 (code evaluated at a failing input): with a resampler whose every
ray profile is `[1, 0, 0]` — so every trial center's mean ring diameter is 0,
strictly below `rmin_search = 15` — every grid objective is +∞, yet
`findCenter` still returns the first grid point `(0, 0)`: no `NoValidCenter`
failure is surfaced (the function's type offers no failure alternative for a
nonempty grid). -/
theorem findCenter_no_failure_when_all_rejected :
    findCenter (objFunc (fun _ => [[1, 0, 0]]) 2 3 15 50) 0 1 0 1 2 = some (0, 0) := by
  have hrs : rsOf (2 : ℚ) 3 = [0, 1, 2] := by norm_num [rsOf, rsGrid, List.range_succ]
  have hdr : drOf (2 : ℚ) 3 = 1 := by
    rw [drOf_eq 2 3 (by norm_num)]
    norm_num
  have hpk : calc_pkrad_from_prof ([0, 1, 2] : List ℚ) 1 3 [1, 0, 0] = (0, 1) := by
    have ha : argmaxLast ([1, 0, 0] : List ℚ) = 0 := by decide
    have hv0 : ([1, 0, 0] : List ℚ).getD 0 0 = 1 := by decide
    have hr0 : ([0, 1, 2] : List ℚ).getD 0 0 = 0 := by decide
    simp only [calc_pkrad_from_prof, ha, hv0, hr0]
    rw [if_neg (by norm_num)]
  have hds : diametersOf (rsOf (2 : ℚ) 3) (drOf 2 3) 3 [[1, 0, 0]] = [0] := by
    rw [hrs, hdr]
    simp only [diametersOf, List.map_cons, List.map_nil, hpk]
    norm_num
  have hobj : ∀ p : ℚ × ℚ, objFunc (fun _ => [[1, 0, 0]]) 2 3 15 50 p = ⊤ := by
    intro p
    simp only [objFunc]
    rw [if_pos]
    left
    rw [hds]
    norm_num [listMean]
  have hgrid : bruteGrid 0 1 0 1 2 = [(0, 0), (0, 1), (1, 0), (1, 1)] := by
    norm_num [bruteGrid, List.range_succ]
  unfold findCenter
  rw [hgrid]
  simp only [List.map_cons, List.map_nil, hobj]
  rw [argminFirstAux_all_top [⊤, ⊤, ⊤] (by
    intro x hx
    simp only [List.mem_cons, List.not_mem_nil, or_false] at hx
    rcases hx with h | h | h <;> simp [h])]
  simp

/-- Claim C8 (code evaluated at the failing input): with the endpoint-inclusive
angle grid `thetas = linspace(0, 2π, 3) = [0, π, 2π]` and the angular profile
`[1, 0, 1]`, cyclically rotating the profile rows by one position (angular
offset dθ = π) gives `[1, 1, 0]`; the concentration measure `asym = |x|`
computed by `calc_ringangle_asymmetry` then changes from 1 to 0 (and with it
the spread and the orientation), so the rotation does not leave the
concentration measure unchanged as the claim requires — the duplicated
endpoint row (angle 0 and angle 2π are both sampled) breaks the circular
moment's shift equivariance. -/
theorem angular_moment_not_shift_invariant :
    (calc_ringangle_asymmetry (thetasOf 3) [1, 0, 1]).2.1 = 1 ∧
      (calc_ringangle_asymmetry (thetasOf 3) [1, 1, 0]).2.1 = 0 := by
  have hpi : (Real.pi : ℝ) ≠ 0 := Real.pi_ne_zero
  have hpic : (Real.pi : ℂ) ≠ 0 := Complex.ofReal_ne_zero.mpr hpi
  have hth : thetasOf 3 = [0, Real.pi, 2 * Real.pi] := by
    simp only [thetasOf, List.range_succ, List.range_zero, List.map_cons, List.map_nil,
      List.nil_append, List.cons_append]
    norm_num
  rw [hth]
  constructor
  · simp only [calc_ringangle_asymmetry]
    norm_num [List.getD]
    have hx : ((2 * (Real.pi : ℂ) - Real.pi + (2 * Real.pi - Real.pi))⁻¹ *
          (2 * Real.pi - Real.pi) +
        (2 * (Real.pi : ℂ) - Real.pi + (2 * Real.pi - Real.pi))⁻¹ *
          (2 * Real.pi - Real.pi)) = 1 := by
      have e1 : (2 * (Real.pi : ℂ) - Real.pi + (2 * Real.pi - Real.pi)) = 2 * Real.pi := by
        ring
      have e2 : (2 * (Real.pi : ℂ) - Real.pi) = Real.pi := by ring
      rw [e1, e2]
      field_simp
      ring
    rw [hx, map_one]
  · simp only [calc_ringangle_asymmetry]
    norm_num [List.getD, Complex.exp_pi_mul_I]

/-- Claim C9: computing the full statistics record is read-only over its
input data: the returned bundle state's profiles, angles and radii arrays and
the underlying image's pixel, Q and U vectors are exactly those of the input
bundle (all mask construction operates on copies of the image). -/
theorem calc_meanprof_and_stats_read_only (ops : ExternalOps) (b : ProfileBundle) :
    (calc_meanprof_and_stats ops b).1.profiles = b.profiles ∧
      (calc_meanprof_and_stats ops b).1.thetas = b.thetas ∧
      (calc_meanprof_and_stats ops b).1.rs = b.rs ∧
      (calc_meanprof_and_stats ops b).1.im.imvec = b.im.imvec ∧
      (calc_meanprof_and_stats ops b).1.im.qvec = b.im.qvec ∧
      (calc_meanprof_and_stats ops b).1.im.uvec = b.im.uvec :=
  ⟨rfl, rfl, rfl, rfl, rfl, rfl⟩

/-- Claim C10: when the image's polarization channels are absent or empty,
`calc_meanprof_and_stats` completes with the polarization-dependent
statistics skipped: `RingAsymPol` is left at its default `(0, 0)` and no
polarized orientation is computed (`RingAnglePol = none`). -/
theorem pol_stats_skipped_when_absent (ops : ExternalOps) (b : ProfileBundle)
    (h : b.im.qvec = [] ∨ b.im.uvec = []) :
    (calc_meanprof_and_stats ops b).2.RingAsymPol = (0, 0) ∧
      (calc_meanprof_and_stats ops b).2.RingAnglePol = none := by
  have hg : ¬(0 < b.im.qvec.length ∧ 0 < b.im.uvec.length) := by
    rcases h with h | h <;> simp [h]
  constructor
  · show (calc_meanprof_and_stats ops b).2.RingAsymPol = (0, 0)
    simp only [calc_meanprof_and_stats]
    rw [polStats, if_neg hg]
  · show (calc_meanprof_and_stats ops b).2.RingAnglePol = none
    simp only [calc_meanprof_and_stats]
    rw [polStats, if_neg hg]

theorem pol_stats_skipped_when_absent_witness :
    (calc_meanprof_and_stats trivialOps witnessBundle).2.RingAsymPol = (0, 0) ∧
      (calc_meanprof_and_stats trivialOps witnessBundle).2.RingAnglePol = none :=
  pol_stats_skipped_when_absent trivialOps witnessBundle (Or.inl rfl)
